import Mathlib

/-!
Shallow embedding of `src/worklets/audio-queue-processor.js`.

The processor keeps a FIFO queue of interleaved stereo chunks, drains two
samples per output slot, sustains the last emitted pair on underrun, and
posts a single-flight refill request when the queue depth falls below 3.

Samples are carried opaquely by the processor (it never performs arithmetic
on them), so we model a sample value as `Option Int`: `some v` is an
ordinary number and `none` models the NaN / `undefined` that a JavaScript
out-of-bounds array read produces (and that a `Float32Array` stores as NaN).
-/

/-- A value held in a sample slot: `some v` is a number, `none` models the
NaN / `undefined` produced by an out-of-bounds JavaScript array read. -/
abbrev Val := Option Int

/-- JavaScript array read `buf[i]`: the element when in bounds, otherwise
`undefined` (modelled as `none`). -/
def jsRead (buf : List Val) (i : Nat) : Val :=
  Option.join (buf.get? i)

/-- The mutable fields of `AudioQueueProcessor`. -/
structure AQState where
  current_buffer : Option (List Val)
  current_buffer_idx : Nat
  audio_queue : List (List Val)
  requested_frames : Nat
  freq : Int
  last_samples : Val × Val
  deriving Repr, DecidableEq

/-- The constructor: `current_buffer = null`, index 0, empty queue, no
outstanding request, `last_samples = [0, 0]`. -/
def initState : AQState :=
  { current_buffer := none
    current_buffer_idx := 0
    audio_queue := []
    requested_frames := 0
    freq := 0
    last_samples := (some 0, some 0) }

/-- The `port.onmessage` handler for a message of type `queue` carrying
`payload`: decrement `requested_frames` if positive, then append the payload
to the queue unless the queue already holds 60 chunks. -/
def onQueueMessage (s : AQState) (payload : List Val) : AQState :=
  let rf := if s.requested_frames > 0 then s.requested_frames - 1
            else s.requested_frames
  let q := if s.audio_queue.length < 60 then s.audio_queue ++ [payload]
           else s.audio_queue
  { s with requested_frames := rf, audio_queue := q }

/-- One iteration of the `for` loop inside `process`: refill
`current_buffer` from the queue if it is null, then either sustain the last
samples (no buffer) or copy the pair at `current_buffer_idx`,
`current_buffer_idx + 1` and advance the cursor by 2, retiring the buffer
when the cursor passes its end.  Returns the updated state and the pair
written to the two channels at this slot. -/
def processSlot (s : AQState) : AQState × (Val × Val) :=
  let s1 : AQState :=
    match s.current_buffer, s.audio_queue with
    | none, b :: rest => { s with current_buffer := some b, audio_queue := rest }
    | _, _ => s
  match s1.current_buffer with
  | none => (s1, s1.last_samples)
  | some buf =>
    let c0 := jsRead buf s1.current_buffer_idx
    let c1 := jsRead buf (s1.current_buffer_idx + 1)
    let idx := s1.current_buffer_idx + 2
    if idx ≥ buf.length then
      ({ s1 with current_buffer := none, current_buffer_idx := 0 }, (c0, c1))
    else
      ({ s1 with current_buffer_idx := idx }, (c0, c1))

/-- The whole `for` loop of `process`, producing `n` output slots.  Returns
the final state and the list of emitted pairs, oldest first. -/
def processLoop : Nat → AQState → AQState × List (Val × Val)
  | 0, s => (s, [])
  | n + 1, s =>
    let (s1, p) := processSlot s
    let (s2, ps) := processLoop n s1
    (s2, p :: ps)

/-- The result of one `process` invocation that did not throw: the emitted
pairs, whether a `get-audio` message was posted, and the returned boolean. -/
structure ProcResult where
  pairs : List (Val × Val)
  sent : Bool
  ret : Bool
  deriving Repr, DecidableEq

/-- One invocation of `process`, given the lengths of the two output channel
arrays.  A length mismatch throws (modelled as `Except.error`) before any
state is mutated, so the state component is returned unchanged in that case.
Otherwise: run the loop, overwrite `last_samples` with the pair read back
from the output arrays at index `length - 1` (an out-of-bounds read, hence
`none`, when `length = 0`), then post a `get-audio` message and increment
`requested_frames` when the queue depth is below 3 and `requested_frames`
is 0, and return `true`. -/
def process (s : AQState) (len0 len1 : Nat) :
    AQState × Except String ProcResult :=
  if len0 ≠ len1 then
    (s, .error "Channel lengths do not match")
  else
    let length := len0
    let (s1, pairs) := processLoop length s
    let last0 := Option.join ((pairs.map Prod.fst).get? (length - 1))
    let last1 := Option.join ((pairs.map Prod.snd).get? (length - 1))
    let s2 := { s1 with last_samples := (last0, last1) }
    if s2.audio_queue.length < 3 ∧ s2.requested_frames = 0 then
      ({ s2 with requested_frames := s2.requested_frames + 1 },
       .ok { pairs := pairs, sent := true, ret := true })
    else
      (s2, .ok { pairs := pairs, sent := false, ret := true })

/-- Whether a (possibly throwing) `process` invocation posted a `get-audio`
message: a throwing invocation posts nothing. -/
def sentFlag (r : Except String ProcResult) : Bool :=
  match r with
  | .ok res => res.sent
  | .error _ => false

/-- Run a sequence of `process` invocations with the given pairs of channel
lengths, collecting for each invocation whether it posted a `get-audio`
message. -/
def runProc : AQState → List (Nat × Nat) → AQState × List Bool
  | s, [] => (s, [])
  | s, (l0, l1) :: rest =>
    let (s1, r) := process s l0 l1
    let (s2, flags) := runProc s1 rest
    (s2, sentFlag r :: flags)

/-- Run a sequence of `process` invocations, collecting the emitted pairs
of all invocations in order (a throwing invocation emits nothing) and for
each invocation whether it posted a `get-audio` message. -/
def runProcTrace : AQState → List (Nat × Nat) → AQState × List (Val × Val) × List Bool
  | s, [] => (s, [], [])
  | s, p :: rest =>
    let res := process s p.1 p.2
    let pairs := match res.2 with
      | .ok r => r.pairs
      | .error _ => []
    let tail := runProcTrace res.1 rest
    (tail.1, pairs ++ tail.2.1, sentFlag res.2 :: tail.2.2)

/-- The states reachable from the constructor state by any interleaving of
chunk-message arrivals and (possibly throwing) `process` invocations. -/
inductive Reachable : AQState → Prop
  | init : Reachable initState
  | msg {s} (payload : List Val) : Reachable s → Reachable (onQueueMessage s payload)
  | proc {s} (len0 len1 : Nat) : Reachable s → Reachable (process s len0 len1).1

/-! ### Basic lemmas about the loop and the state fields it leaves alone -/

theorem processSlot_requested (s : AQState) :
    (processSlot s).1.requested_frames = s.requested_frames := by
  unfold processSlot
  rcases s with ⟨cb, idx, q, rf, fr, ls⟩
  cases cb <;> cases q <;> simp <;> split <;> rfl

theorem processSlot_last (s : AQState) :
    (processSlot s).1.last_samples = s.last_samples := by
  unfold processSlot
  rcases s with ⟨cb, idx, q, rf, fr, ls⟩
  cases cb <;> cases q <;> simp <;> split <;> rfl

theorem processLoop_requested (n : Nat) (s : AQState) :
    (processLoop n s).1.requested_frames = s.requested_frames := by
  induction n generalizing s with
  | zero => rfl
  | succ n ih => simp [processLoop, ih, processSlot_requested]

theorem processSlot_queue_nil (s : AQState) (h : s.audio_queue = []) :
    (processSlot s).1.audio_queue = [] := by
  unfold processSlot
  rcases s with ⟨cb, idx, q, rf, fr, ls⟩
  simp only at h
  subst h
  cases cb <;> simp <;> split <;> rfl

theorem processLoop_queue_nil (n : Nat) (s : AQState) (h : s.audio_queue = []) :
    (processLoop n s).1.audio_queue = [] := by
  induction n generalizing s with
  | zero => exact h
  | succ n ih => simpa [processLoop] using ih _ (processSlot_queue_nil s h)

theorem get?_isSome_iff (l : List Val) (i : Nat) :
    (l.get? i).isSome = true ↔ i < l.length := by
  constructor
  · intro h
    by_contra hlt
    rw [List.get?_eq_getElem?, List.getElem?_eq_none (by omega)] at h
    simp at h
  · intro h
    rw [List.get?_eq_getElem?, List.getElem?_eq_getElem h]
    rfl

theorem processLoop_length (n : Nat) (s : AQState) :
    (processLoop n s).2.length = n := by
  induction n generalizing s with
  | zero => rfl
  | succ n ih => simp [processLoop, ih]

/-- With an empty queue and no active chunk, one slot sustains the last
samples and leaves the state untouched. -/
theorem processSlot_underrun (s : AQState) (hq : s.audio_queue = [])
    (hb : s.current_buffer = none) : processSlot s = (s, s.last_samples) := by
  unfold processSlot
  rw [hb, hq]
  simp [hb]

/-- With an empty queue and no active chunk, the loop sustains the last
samples on every slot and leaves the state untouched. -/
theorem processLoop_underrun (n : Nat) (s : AQState) (hq : s.audio_queue = [])
    (hb : s.current_buffer = none) :
    processLoop n s = (s, List.replicate n s.last_samples) := by
  induction n with
  | zero => rfl
  | succ n ih => simp [processLoop, processSlot_underrun s hq hb, ih,
      List.replicate_succ]

/-- The (chunk length, read index) pairs of the JavaScript array reads one
slot performs on the current chunk (after the refill from the queue, as in
`processSlot`); an underrun slot performs no chunk read. -/
def slotReads (s : AQState) : List (Nat × Nat) :=
  let s1 : AQState :=
    match s.current_buffer, s.audio_queue with
    | none, b :: rest => { s with current_buffer := some b, audio_queue := rest }
    | _, _ => s
  match s1.current_buffer with
  | none => []
  | some buf =>
    [(buf.length, s1.current_buffer_idx), (buf.length, s1.current_buffer_idx + 1)]

/-- The chunk reads performed over `n` slots of the loop. -/
def loopReads : Nat → AQState → List (Nat × Nat)
  | 0, _ => []
  | n + 1, s => slotReads s ++ loopReads n (processSlot s).1

/-- The cursor / chunk-shape invariant of the processor: the cursor is 0
whenever no chunk is active, any active chunk has even length with an even
cursor strictly inside it, and every queued chunk has even positive
length. -/
def GoodState (s : AQState) : Prop :=
  (s.current_buffer = none → s.current_buffer_idx = 0) ∧
  (∀ b : List Val, s.current_buffer = some b →
     s.current_buffer_idx % 2 = 0 ∧ s.current_buffer_idx < b.length ∧
     b.length % 2 = 0) ∧
  (∀ c ∈ s.audio_queue, c.length % 2 = 0 ∧ 0 < c.length)

/-- A slot on a state with an active chunk reads the pair at the cursor and
advances (or retires) the cursor. -/
theorem processSlot_active (s : AQState) (b : List Val)
    (hb : s.current_buffer = some b) :
    processSlot s =
      (if s.current_buffer_idx + 2 ≥ b.length then
         { s with current_buffer := none, current_buffer_idx := 0 }
       else { s with current_buffer_idx := s.current_buffer_idx + 2 },
       (jsRead b s.current_buffer_idx, jsRead b (s.current_buffer_idx + 1))) := by
  unfold processSlot
  rcases s with ⟨cb, idx, q, rf, fr, ls⟩
  simp only at hb
  subst hb
  cases q <;> simp <;> split <;> rfl

/-- A slot on a state with no active chunk and a non-empty queue behaves as
a slot on the state after dequeuing the head chunk. -/
theorem processSlot_dequeue (s : AQState) (b : List Val)
    (rest : List (List Val)) (hb : s.current_buffer = none)
    (hq : s.audio_queue = b :: rest) :
    processSlot s =
      processSlot { s with current_buffer := some b, audio_queue := rest } := by
  unfold processSlot
  rcases s with ⟨cb, idx, q, rf, fr, ls⟩
  simp only at hb hq
  subst hb
  subst hq
  simp

theorem slotReads_underrun (s : AQState) (hq : s.audio_queue = [])
    (hb : s.current_buffer = none) : slotReads s = [] := by
  unfold slotReads
  rw [hb, hq]
  simp [hb]

theorem slotReads_active (s : AQState) (b : List Val)
    (hb : s.current_buffer = some b) :
    slotReads s = [(b.length, s.current_buffer_idx),
                   (b.length, s.current_buffer_idx + 1)] := by
  unfold slotReads
  rcases s with ⟨cb, idx, q, rf, fr, ls⟩
  simp only at hb
  subst hb
  cases q <;> simp

theorem slotReads_dequeue (s : AQState) (b : List Val)
    (rest : List (List Val)) (hb : s.current_buffer = none)
    (hq : s.audio_queue = b :: rest) :
    slotReads s =
      slotReads { s with current_buffer := some b, audio_queue := rest } := by
  unfold slotReads
  rcases s with ⟨cb, idx, q, rf, fr, ls⟩
  simp only at hb hq
  subst hb
  subst hq
  simp

/-- A slot on a state with an active chunk satisfying the cursor facts
preserves the invariant. -/
theorem goodState_slot_aux (s : AQState) (b : List Val)
    (hb : s.current_buffer = some b)
    (hi2 : s.current_buffer_idx % 2 = 0)
    (hil : s.current_buffer_idx < b.length)
    (hbl : b.length % 2 = 0)
    (h2 : ∀ c ∈ s.audio_queue, c.length % 2 = 0 ∧ 0 < c.length) :
    GoodState (processSlot s).1 := by
  rw [processSlot_active s b hb]
  dsimp only
  split
  · refine ⟨fun _ => rfl, fun b2 hb2 => ?_, h2⟩
    simp at hb2
  · rename_i hlt
    refine ⟨fun hc => ?_, fun b2 hb2 => ?_, h2⟩
    · rw [hb] at hc
      cases hc
    · rw [hb] at hb2
      cases Option.some.inj hb2
      refine ⟨?_, ?_, hbl⟩
      · show (s.current_buffer_idx + 2) % 2 = 0
        omega
      · show s.current_buffer_idx + 2 < b.length
        omega

/-- A slot preserves the invariant. -/
theorem goodState_processSlot (s : AQState) (h : GoodState s) :
    GoodState (processSlot s).1 := by
  obtain ⟨h0, h1, h2⟩ := h
  rcases hcb : s.current_buffer with _ | b
  · rcases hq : s.audio_queue with _ | ⟨b, rest⟩
    · rw [processSlot_underrun s hq hcb]
      exact ⟨h0, h1, h2⟩
    · rw [processSlot_dequeue s b rest hcb hq]
      have hmem := h2 b (by rw [hq]; exact List.mem_cons_self b rest)
      refine goodState_slot_aux _ b rfl ?_ ?_ hmem.1 ?_
      · show s.current_buffer_idx % 2 = 0
        rw [h0 hcb]
      · show s.current_buffer_idx < b.length
        rw [h0 hcb]
        exact hmem.2
      · intro c hc
        exact h2 c (by rw [hq]; exact List.mem_cons_of_mem b hc)
  · exact goodState_slot_aux s b hcb (h1 b hcb).1 (h1 b hcb).2.1
      (h1 b hcb).2.2 h2

/-- On an invariant state, both reads of a slot are in bounds. -/
theorem slotReads_inBounds (s : AQState) (h : GoodState s) :
    ∀ p ∈ slotReads s, p.2 < p.1 := by
  obtain ⟨h0, h1, h2⟩ := h
  rcases hcb : s.current_buffer with _ | b
  · rcases hq : s.audio_queue with _ | ⟨b, rest⟩
    · rw [slotReads_underrun s hq hcb]
      simp
    · rw [slotReads_dequeue s b rest hcb hq, slotReads_active _ b rfl]
      have hmem := h2 b (by rw [hq]; exact List.mem_cons_self b rest)
      intro p hp
      have hidx : s.current_buffer_idx = 0 := h0 hcb
      simp only [List.mem_cons, List.not_mem_nil, or_false] at hp
      rcases hp with rfl | rfl
      · show s.current_buffer_idx < b.length
        omega
      · show s.current_buffer_idx + 1 < b.length
        omega
  · rw [slotReads_active s b hcb]
    obtain ⟨hi2, hil, hbl⟩ := h1 b hcb
    intro p hp
    simp only [List.mem_cons, List.not_mem_nil, or_false] at hp
    rcases hp with rfl | rfl
    · exact hil
    · show s.current_buffer_idx + 1 < b.length
      omega

/-- On an invariant state, every read of the loop is in bounds. -/
theorem loopReads_inBounds (n : Nat) (s : AQState) (h : GoodState s) :
    ∀ p ∈ loopReads n s, p.2 < p.1 := by
  induction n generalizing s with
  | zero => simp [loopReads]
  | succ n ih =>
      intro p hp
      simp only [loopReads, List.mem_append] at hp
      rcases hp with hp | hp
      · exact slotReads_inBounds s h p hp
      · exact ih _ (goodState_processSlot s h) p hp

/-- The loop preserves the invariant. -/
theorem goodState_processLoop (n : Nat) (s : AQState) (h : GoodState s) :
    GoodState (processLoop n s).1 := by
  induction n generalizing s with
  | zero => exact h
  | succ n ih =>
      simp only [processLoop]
      exact ih _ (goodState_processSlot s h)

/-- A chunk message carrying an even positive payload preserves the
invariant. -/
theorem goodState_onQueueMessage (s : AQState) (payload : List Val)
    (h : GoodState s) (hp2 : payload.length % 2 = 0)
    (hp : 0 < payload.length) : GoodState (onQueueMessage s payload) := by
  obtain ⟨h0, h1, h2⟩ := h
  refine ⟨h0, h1, ?_⟩
  intro c hc
  unfold onQueueMessage at hc
  dsimp only at hc
  split at hc
  · rcases List.mem_append.mp hc with hc | hc
    · exact h2 c hc
    · simp only [List.mem_singleton] at hc
      subst hc
      exact ⟨hp2, hp⟩
  · exact h2 c hc

/-- With an active chunk of odd length and an even cursor inside it, the
loop eventually performs a read at an index equal to the chunk length. -/
theorem odd_chunk_read_oob (n : Nat) (s : AQState) (b : List Val)
    (hb : s.current_buffer = some b) (hi2 : s.current_buffer_idx % 2 = 0)
    (hil : s.current_buffer_idx < b.length) (hodd : b.length % 2 = 1)
    (hfuel : b.length - s.current_buffer_idx + 1 ≤ 2 * n) :
    (b.length, b.length) ∈ loopReads n s := by
  induction n generalizing s with
  | zero => exact absurd hfuel (by omega)
  | succ n ih =>
      simp only [loopReads, List.mem_append]
      by_cases hlast : s.current_buffer_idx + 1 = b.length
      · left
        rw [slotReads_active s b hb, hlast]
        exact List.mem_cons_of_mem _ (List.mem_cons_self _ _)
      · right
        have hlt : s.current_buffer_idx + 2 < b.length := by omega
        rw [processSlot_active s b hb, if_neg (by omega)]
        exact ih { s with current_buffer_idx := s.current_buffer_idx + 2 }
          hb (show (s.current_buffer_idx + 2) % 2 = 0 by omega)
          (show s.current_buffer_idx + 2 < b.length by omega)
          (show b.length - (s.current_buffer_idx + 2) + 1 ≤ 2 * n by omega)

/-- The flat stream of samples still to be played: the unread tail of the
active chunk followed by the queued chunks in order. -/
def pending (s : AQState) : List Val :=
  (match s.current_buffer with
   | some b => b.drop s.current_buffer_idx
   | none => []) ++ s.audio_queue.flatten

/-- The per-channel interleaving of a list of emitted stereo pairs, i.e.
the flat sample stream the pairs carry. -/
def interleave : List (Val × Val) → List Val
  | [] => []
  | p :: ps => p.1 :: p.2 :: interleave ps

/-- Deliver a list of chunk messages in order. -/
def enqueueAll : AQState → List (List Val) → AQState
  | s, [] => s
  | s, c :: cs => enqueueAll (onQueueMessage s c) cs

theorem pending_active (s : AQState) (b : List Val)
    (hb : s.current_buffer = some b) :
    pending s = b.drop s.current_buffer_idx ++ s.audio_queue.flatten := by
  unfold pending
  rw [hb]

theorem pending_none (s : AQState) (hb : s.current_buffer = none) :
    pending s = s.audio_queue.flatten := by
  unfold pending
  rw [hb]
  rfl

theorem interleave_append (xs ys : List (Val × Val)) :
    interleave (xs ++ ys) = interleave xs ++ interleave ys := by
  induction xs with
  | nil => rfl
  | cons p ps ih => simp [interleave, ih]

theorem interleave_length (xs : List (Val × Val)) :
    (interleave xs).length = 2 * xs.length := by
  induction xs with
  | nil => rfl
  | cons p ps ih =>
      simp [interleave, ih]
      omega

theorem flatten_length_even (q : List (List Val))
    (h : ∀ c ∈ q, c.length % 2 = 0) : q.flatten.length % 2 = 0 := by
  induction q with
  | nil => rfl
  | cons c rest ih =>
      rw [List.flatten_cons, List.length_append]
      have h1 := h c (List.mem_cons_self c rest)
      have h2 := ih (fun d hd => h d (List.mem_cons_of_mem c hd))
      omega

/-- On an invariant state, the pending stream has even length. -/
theorem pending_length_even (s : AQState) (h : GoodState s) :
    (pending s).length % 2 = 0 := by
  obtain ⟨h0, h1, h2⟩ := h
  have hq := flatten_length_even s.audio_queue (fun c hc => (h2 c hc).1)
  rcases hcb : s.current_buffer with _ | b
  · rw [pending_none s hcb]
    exact hq
  · rw [pending_active s b hcb, List.length_append, List.length_drop]
    obtain ⟨hi2, hil, hbl⟩ := h1 b hcb
    omega

/-- On an invariant state an empty pending stream means underrun: no active
chunk and an empty queue. -/
theorem pending_nil_underrun (s : AQState) (h : GoodState s)
    (hp : pending s = []) :
    s.current_buffer = none ∧ s.audio_queue = [] := by
  obtain ⟨h0, h1, h2⟩ := h
  rcases hcb : s.current_buffer with _ | b
  · refine ⟨rfl, ?_⟩
    rw [pending_none s hcb] at hp
    rcases hq : s.audio_queue with _ | ⟨c, rest⟩
    · rfl
    · exfalso
      rw [hq, List.flatten_cons, List.append_eq_nil] at hp
      have := (h2 c (by rw [hq]; exact List.mem_cons_self c rest)).2
      rw [hp.1] at this
      simp at this
  · exfalso
    obtain ⟨hi2, hil, hbl⟩ := h1 b hcb
    rw [pending_active s b hcb, List.append_eq_nil] at hp
    have := congrArg List.length hp.1
    rw [List.length_drop] at this
    simp at this
    omega

/-- Active-chunk case of the slot/pending refinement: the slot emits the
first two pending samples and the new pending stream drops them. -/
theorem slot_pending_aux (s : AQState) (b : List Val)
    (hb : s.current_buffer = some b)
    (hi2 : s.current_buffer_idx % 2 = 0)
    (hil : s.current_buffer_idx < b.length)
    (hbl : b.length % 2 = 0) :
    [(processSlot s).2.1, (processSlot s).2.2] = (pending s).take 2 ∧
    pending (processSlot s).1 = (pending s).drop 2 := by
  have hlen : 2 ≤ (b.drop s.current_buffer_idx).length := by
    rw [List.length_drop]
    omega
  obtain ⟨x, y, t, hxyt⟩ :
      ∃ x y t, b.drop s.current_buffer_idx = x :: y :: t := by
    rcases hstruct : b.drop s.current_buffer_idx with _ | ⟨x, rest1⟩
    · rw [hstruct] at hlen
      simp at hlen
    · rcases rest1 with _ | ⟨y, t⟩
      · rw [hstruct] at hlen
        simp at hlen
      · exact ⟨x, y, t, rfl⟩
  have hx : jsRead b s.current_buffer_idx = x := by
    unfold jsRead
    have h0 : (b.drop s.current_buffer_idx)[0]? = b[s.current_buffer_idx]? := by
      rw [List.getElem?_drop, Nat.add_zero]
    rw [List.get?_eq_getElem?, ← h0, hxyt]
    rfl
  have hy : jsRead b (s.current_buffer_idx + 1) = y := by
    unfold jsRead
    have h1 : (b.drop s.current_buffer_idx)[1]? = b[s.current_buffer_idx + 1]? := by
      rw [List.getElem?_drop]
    rw [List.get?_eq_getElem?, ← h1, hxyt]
    simp
  have hdlen : (x :: y :: t).length = b.length - s.current_buffer_idx := by
    rw [← hxyt, List.length_drop]
  rw [processSlot_active s b hb]
  dsimp only
  rw [pending_active s b hb, hxyt]
  constructor
  · rw [hx, hy]
    rfl
  · split
    · rename_i hge
      have ht : t = [] := by
        simp only [List.length_cons] at hdlen
        exact List.length_eq_zero.mp (by omega)
      rw [pending_none _ rfl]
      subst ht
      rfl
    · rename_i hlt
      rw [pending_active
        { s with current_buffer_idx := s.current_buffer_idx + 2 } b hb]
      show b.drop (s.current_buffer_idx + 2) ++ s.audio_queue.flatten = _
      rw [← List.drop_drop, hxyt]
      rfl

/-- On an invariant state with a non-empty pending stream, a slot emits the
first two pending samples and the new pending stream drops them. -/
theorem processSlot_pending (s : AQState) (h : GoodState s)
    (hp : pending s ≠ []) :
    [(processSlot s).2.1, (processSlot s).2.2] = (pending s).take 2 ∧
    pending (processSlot s).1 = (pending s).drop 2 := by
  obtain ⟨h0, h1, h2⟩ := h
  rcases hcb : s.current_buffer with _ | b
  · rcases hq : s.audio_queue with _ | ⟨c, rest⟩
    · exact absurd (by rw [pending_none s hcb, hq]; rfl) hp
    · rw [processSlot_dequeue s c rest hcb hq]
      have hmem := h2 c (by rw [hq]; exact List.mem_cons_self c rest)
      have hpend_eq :
          pending { s with current_buffer := some c, audio_queue := rest } =
            pending s := by
        rw [pending_active _ c rfl, pending_none s hcb, hq, List.flatten_cons]
        show c.drop s.current_buffer_idx ++ rest.flatten = c ++ rest.flatten
        rw [h0 hcb]
        rfl
      rw [← hpend_eq]
      refine slot_pending_aux _ c rfl ?_ ?_ hmem.1
      · show s.current_buffer_idx % 2 = 0
        rw [h0 hcb]
      · show s.current_buffer_idx < c.length
        rw [h0 hcb]
        exact hmem.2
  · exact slot_pending_aux s b hcb (h1 b hcb).1 (h1 b hcb).2.1 (h1 b hcb).2.2

theorem processLoop_succ (n : Nat) (s : AQState) :
    processLoop (n + 1) s =
      ((processLoop n (processSlot s).1).1,
       (processSlot s).2 :: (processLoop n (processSlot s).1).2) := rfl

/-- Loop/pending refinement: over `n` slots the loop emits exactly the
first `2 * n` pending samples (in channel-interleaved order), padding with
sustained output beyond them, and the new pending stream drops what was
emitted. -/
theorem processLoop_pending (n : Nat) (s : AQState) (h : GoodState s) :
    (interleave (processLoop n s).2).take (pending s).length =
      (pending s).take (2 * n) ∧
    pending (processLoop n s).1 = (pending s).drop (2 * n) := by
  induction n generalizing s with
  | zero => simp [processLoop, interleave]
  | succ n ih =>
      by_cases hp : pending s = []
      · obtain ⟨hcb, hq⟩ := pending_nil_underrun s h hp
        rw [processLoop_underrun (n + 1) s hq hcb, hp]
        simp [interleave]
      · have hev := pending_length_even s h
        have hple : 2 ≤ (pending s).length := by
          rcases hlen0 : (pending s).length with _ | ⟨_ | k⟩
          · exact absurd (List.length_eq_zero.mp hlen0) hp
          · rw [hlen0] at hev
            simp at hev
          · omega
        obtain ⟨a, b2, t, habt⟩ : ∃ a b2 t, pending s = a :: b2 :: t := by
          rcases hstruct : pending s with _ | ⟨a, rest1⟩
          · rw [hstruct] at hple
            simp at hple
          · rcases rest1 with _ | ⟨b2, t⟩
            · rw [hstruct] at hple
              simp at hple
            · exact ⟨a, b2, t, rfl⟩
        obtain ⟨hslot1, hslot2⟩ := processSlot_pending s h hp
        have hgs1 := goodState_processSlot s h
        obtain ⟨ih1, ih2⟩ := ih (processSlot s).1 hgs1
        rw [habt] at hslot1 hslot2
        have hpend1 : pending (processSlot s).1 = t := by
          rw [hslot2]
          rfl
        have hpair : (processSlot s).2.1 = a ∧ (processSlot s).2.2 = b2 := by
          simp only [List.take_succ_cons, List.take_zero, List.cons.injEq,
            and_true] at hslot1
          exact ⟨hslot1.1, hslot1.2⟩
        have h2n : 2 * (n + 1) = 2 * n + 1 + 1 := by omega
        rw [hpend1] at ih1 ih2
        constructor
        · rw [processLoop_succ]
          show (interleave ((processSlot s).2 ::
            (processLoop n (processSlot s).1).2)).take (pending s).length = _
          simp only [interleave]
          rw [hpair.1, hpair.2, habt, h2n]
          simp only [List.length_cons, List.take_succ_cons]
          rw [ih1]
        · rw [processLoop_succ]
          show pending (processLoop n (processSlot s).1).1 = _
          rw [ih2, habt, h2n]
          simp only [List.drop_succ_cons]
theorem process_eq (s : AQState) (len : Nat) :
    process s len len =
      (let s1 := (processLoop len s).1
       let pairs := (processLoop len s).2
       let last0 := Option.join ((pairs.map Prod.fst).get? (len - 1))
       let last1 := Option.join ((pairs.map Prod.snd).get? (len - 1))
       let s2 := { s1 with last_samples := (last0, last1) }
       if s2.audio_queue.length < 3 ∧ s2.requested_frames = 0 then
         ({ s2 with requested_frames := s2.requested_frames + 1 },
          .ok { pairs := pairs, sent := true, ret := true })
       else
         (s2, .ok { pairs := pairs, sent := false, ret := true })) := by
  unfold process
  simp

/-- A mismatched invocation throws with the state untouched. -/
theorem process_mismatch (s : AQState) (l0 l1 : Nat) (h : l0 ≠ l1) :
    process s l0 l1 = (s, .error "Channel lengths do not match") := by
  simp [process, h]

/-- A whole invocation preserves the invariant (`last_samples` and
`requested_frames`, the only fields touched after the loop, are not
constrained by it). -/
theorem goodState_process (s : AQState) (l0 l1 : Nat) (h : GoodState s) :
    GoodState (process s l0 l1).1 := by
  by_cases hl : l0 = l1
  · subst hl
    rw [process_eq]
    dsimp only
    split
    · exact goodState_processLoop l0 s h
    · exact goodState_processLoop l0 s h
  · rw [process_mismatch s l0 l1 hl]
    exact h

/-- With an empty queue, no active chunk, and a positive block length, one
`process` invocation emits the last samples on every slot and leaves the
queue, the cursor and the last samples unchanged. -/
theorem process_underrun (s : AQState) (len : Nat) (hq : s.audio_queue = [])
    (hb : s.current_buffer = none) (hlen : 1 ≤ len) :
    (∃ r : ProcResult, (process s len len).2 = Except.ok r ∧
       r.pairs = List.replicate len s.last_samples) ∧
    (process s len len).1.last_samples = s.last_samples ∧
    (process s len len).1.audio_queue = [] ∧
    (process s len len).1.current_buffer = none := by
  have h1 : ((List.replicate len s.last_samples).map Prod.fst).get? (len - 1)
      = some s.last_samples.1 := by
    rw [List.map_replicate, List.get?_eq_getElem?, List.getElem?_replicate,
      if_pos (by omega)]
  have h2 : ((List.replicate len s.last_samples).map Prod.snd).get? (len - 1)
      = some s.last_samples.2 := by
    rw [List.map_replicate, List.get?_eq_getElem?, List.getElem?_replicate,
      if_pos (by omega)]
  rw [process_eq]
  dsimp only
  rw [processLoop_underrun len s hq hb]
  dsimp only
  rw [h1, h2]
  split
  · exact ⟨⟨_, rfl, rfl⟩, by simp, hq, hb⟩
  · exact ⟨⟨_, rfl, rfl⟩, by simp, hq, hb⟩

/-- The states reachable from the constructor state by `process` invocations
alone (no chunk message ever arrives), every non-throwing invocation having
a positive block length. -/
inductive ReachableNoChunk : AQState → Prop
  | init : ReachableNoChunk initState
  | proc {s} (len0 len1 : Nat) : (len0 = len1 → 1 ≤ len0) →
      ReachableNoChunk s → ReachableNoChunk (process s len0 len1).1

/-- If no chunk has ever arrived, the queue is empty, no chunk is active,
and the last samples are still the zeros set by the constructor. -/
theorem reachableNoChunk_spec (s : AQState) (h : ReachableNoChunk s) :
    s.audio_queue = [] ∧ s.current_buffer = none ∧
    s.last_samples = (some 0, some 0) := by
  induction h with
  | init => exact ⟨rfl, rfl, rfl⟩
  | proc len0 len1 hpos _ ih =>
      rename_i t _
      obtain ⟨hq, hb, hl0⟩ := ih
      by_cases hl : len0 = len1
      · subst hl
        obtain ⟨_, hlast, hq2, hb2⟩ := process_underrun t len0 hq hb (hpos rfl)
        exact ⟨hq2, hb2, by rw [hlast, hl0]⟩
      · rw [process_mismatch t len0 len1 hl]
        exact ⟨hq, hb, hl0⟩

/-- A `process` invocation with a nonzero outstanding-request counter leaves
the counter unchanged and posts nothing. -/
theorem process_requested_ne (s : AQState) (l0 l1 : Nat)
    (h : s.requested_frames ≠ 0) :
    (process s l0 l1).1.requested_frames = s.requested_frames ∧
    sentFlag (process s l0 l1).2 = false := by
  by_cases hl : l0 = l1
  · subst hl
    rw [process_eq]
    dsimp only
    rw [if_neg]
    · exact ⟨by simp [processLoop_requested], rfl⟩
    · simp [processLoop_requested, h]
  · simp [process, hl, sentFlag]

/-- The counter after `process` is the old counter, plus one exactly when a
`get-audio` message was posted. -/
theorem process_requested_eq (s : AQState) (l0 l1 : Nat) :
    (process s l0 l1).1.requested_frames =
      (if sentFlag (process s l0 l1).2 = true then s.requested_frames + 1
       else s.requested_frames) := by
  by_cases hl : l0 = l1
  · subst hl
    rw [process_eq]
    dsimp only
    split
    · simp [sentFlag, processLoop_requested]
    · simp [sentFlag, processLoop_requested]
  · simp [process, hl, sentFlag]

/-- `process` posts a `get-audio` message exactly when the queue depth left
by the loop is below 3 and the counter was 0. -/
theorem process_sent_iff (s : AQState) (len : Nat) :
    sentFlag (process s len len).2 = true ↔
      ((processLoop len s).1.audio_queue.length < 3 ∧
       s.requested_frames = 0) := by
  rw [process_eq]
  dsimp only
  split
  · rename_i hcond
    simp only [sentFlag, true_iff]
    exact ⟨hcond.1, by rw [← processLoop_requested len s]; exact hcond.2⟩
  · rename_i hcond
    simp only [sentFlag, Bool.false_eq_true, false_iff]
    intro hc
    exact hcond ⟨hc.1, by rw [processLoop_requested len s]; exact hc.2⟩

/-- A matching invocation succeeds, its emitted pairs are exactly the
loop's, and the post-loop bookkeeping (`last_samples`, `requested_frames`)
leaves the pending stream untouched. -/
theorem process_pairs_pending (s : AQState) (len : Nat) :
    ∃ r : ProcResult, (process s len len).2 = Except.ok r ∧
      r.pairs = (processLoop len s).2 ∧
      pending (process s len len).1 = pending (processLoop len s).1 := by
  rw [process_eq]
  dsimp only
  split
  · exact ⟨_, rfl, rfl, rfl⟩
  · exact ⟨_, rfl, rfl, rfl⟩

/-- Run-level refinement: a sequence of matching invocations emits exactly
the pending samples, in order, padding with sustained output beyond them. -/
theorem runProcTrace_pending (lens : List Nat) (s : AQState)
    (h : GoodState s) :
    (interleave (runProcTrace s (lens.map fun l => (l, l))).2.1).take
        (pending s).length = (pending s).take (2 * lens.sum) ∧
    GoodState (runProcTrace s (lens.map fun l => (l, l))).1 ∧
    pending (runProcTrace s (lens.map fun l => (l, l))).1 =
      (pending s).drop (2 * lens.sum) := by
  induction lens generalizing s with
  | nil => simp [runProcTrace, interleave, h]
  | cons l rest ih =>
      obtain ⟨r, hr, hrpairs, hrpend⟩ := process_pairs_pending s l
      obtain ⟨hloop1, hloop2⟩ := processLoop_pending l s h
      have hgs1 : GoodState (process s l l).1 := goodState_process s l l h
      obtain ⟨ih1, ih2, ih3⟩ := ih (process s l l).1 hgs1
      have hpend1 : pending (process s l l).1 = (pending s).drop (2 * l) := by
        rw [hrpend, hloop2]
      rw [hpend1] at ih1 ih3
      have hAlen : (interleave r.pairs).length = 2 * l := by
        rw [hrpairs, interleave_length, processLoop_length]
      have hA : (interleave r.pairs).take (pending s).length =
          (pending s).take (2 * l) := by
        rw [hrpairs]
        exact hloop1
      simp only [List.map_cons, runProcTrace, hr]
      refine ⟨?_, ih2, ?_⟩
      · rw [interleave_append, List.take_append_eq_append_take, hA, hAlen,
          List.length_drop] at *
        rw [ih1]
        have hsum : 2 * (l :: rest).sum = 2 * l + 2 * rest.sum := by
          rw [List.sum_cons]
          omega
        rw [hsum, List.take_add]
      · rw [ih3, List.drop_drop]
        have hsum : 2 * (l :: rest).sum = 2 * l + 2 * rest.sum := by
          rw [List.sum_cons]
          omega
        rw [hsum]

/-- Delivering chunks that fit under the depth limit appends them all, in
order, and does not touch the cursor. -/
theorem enqueueAll_spec (chunks : List (List Val)) (s : AQState)
    (h : s.audio_queue.length + chunks.length ≤ 60) :
    (enqueueAll s chunks).audio_queue = s.audio_queue ++ chunks ∧
    (enqueueAll s chunks).current_buffer = s.current_buffer ∧
    (enqueueAll s chunks).current_buffer_idx = s.current_buffer_idx := by
  induction chunks generalizing s with
  | nil => simp [enqueueAll]
  | cons c cs ih =>
      have hlt : s.audio_queue.length < 60 := by
        simp only [List.length_cons] at h
        omega
      have hq : (onQueueMessage s c).audio_queue = s.audio_queue ++ [c] := by
        unfold onQueueMessage
        dsimp only
        rw [if_pos hlt]
      obtain ⟨i1, i2, i3⟩ := ih (onQueueMessage s c)
        (by rw [hq]; simp only [List.length_append, List.length_singleton]
            simp only [List.length_cons] at h
            omega)
      refine ⟨?_, ?_, ?_⟩
      · show (enqueueAll (onQueueMessage s c) cs).audio_queue = _
        rw [i1, hq]
        simp
      · show (enqueueAll (onQueueMessage s c) cs).current_buffer = _
        rw [i2]
        rfl
      · show (enqueueAll (onQueueMessage s c) cs).current_buffer_idx = _
        rw [i3]
        rfl

/-- A posted `get-audio` message means the counter was 0 on entry. -/
theorem process_sent_requested_zero (s : AQState) (l0 l1 : Nat)
    (h : sentFlag (process s l0 l1).2 = true) : s.requested_frames = 0 := by
  by_contra hne
  have := (process_requested_ne s l0 l1 hne).2
  rw [h] at this
  exact absurd this (by decide)

/-! ### Claim theorems -/

/-- Claim C1 counterexample: a zero-length chunk (a valid chunk under the
depth limit) breaks order preservation: the slot that picks it up reads out
of bounds and emits a junk pair that is not part of the concatenation and
is not trailing underrun output. -/
theorem order_preservation_counterexample :
    ¬ ((interleave (runProcTrace (enqueueAll initState [[], [some 7, some 8]])
          ([2].map fun l => (l, l))).2.1).take
            ([[], [some 7, some 8]] : List (List Val)).flatten.length =
          ([[], [some 7, some 8]] : List (List Val)).flatten) := by
  decide

/-- Claim C1 (order preservation): for every sequence of chunks (each a
valid stereo chunk: even positive length) enqueued from the initial state
without exceeding the depth limit, the samples emitted by any sequence of
`process` invocations long enough to play them all equal, up to the total
chunk length and channel-interleaved, the concatenation of the chunks in
enqueue order; output beyond that point is trailing underrun output and is
ignored by the `take`. -/
theorem order_preservation (chunks : List (List Val)) (lens : List Nat)
    (hdepth : chunks.length ≤ 60)
    (hchunks : ∀ c ∈ chunks, c.length % 2 = 0 ∧ 0 < c.length)
    (hfuel : chunks.flatten.length ≤ 2 * lens.sum) :
    (interleave (runProcTrace (enqueueAll initState chunks)
        (lens.map fun l => (l, l))).2.1).take chunks.flatten.length =
      chunks.flatten := by
  obtain ⟨hq, hcb, hidx⟩ := enqueueAll_spec chunks initState
    (by simp [initState]; omega)
  have hq0 : (enqueueAll initState chunks).audio_queue = chunks := by
    rw [hq]
    rfl
  have hcb0 : (enqueueAll initState chunks).current_buffer = none := by
    rw [hcb]
    rfl
  have hgs : GoodState (enqueueAll initState chunks) := by
    refine ⟨fun _ => ?_, fun b hb => ?_, fun c hc => ?_⟩
    · rw [hidx]
      rfl
    · rw [hcb0] at hb
      cases hb
    · rw [hq0] at hc
      exact hchunks c hc
  have hpend : pending (enqueueAll initState chunks) = chunks.flatten := by
    rw [pending_none _ hcb0, hq0]
  obtain ⟨main, _, _⟩ := runProcTrace_pending lens _ hgs
  rw [hpend] at main
  rw [main, List.take_of_length_le hfuel]

/-- Witness for C1: two chunks of two samples each, played by one 3-slot
invocation. -/
theorem order_preservation_witness :
    (interleave (runProcTrace (enqueueAll initState
        [[some 1, some 2], [some 3, some 4]])
        ([3].map fun l => (l, l))).2.1).take 4 =
      [some 1, some 2, some 3, some 4] :=
  order_preservation [[some 1, some 2], [some 3, some 4]] [3]
    (by decide) (by decide) (by decide)

/-- Claim C4 (overflow drop): a chunk message arriving while the queue
already holds 60 chunks leaves the queue unchanged, and a chunk message
arriving while the depth is below 60 appends the chunk at the tail. -/
theorem overflow_drop (s : AQState) (payload : List Val) :
    (s.audio_queue.length = 60 →
       (onQueueMessage s payload).audio_queue = s.audio_queue) ∧
    (s.audio_queue.length < 60 →
       (onQueueMessage s payload).audio_queue = s.audio_queue ++ [payload]) := by
  constructor <;> intro h <;> simp [onQueueMessage, h]

/-- Witness for C4 at a queue of 60 chunks and at the empty queue. -/
theorem overflow_drop_witness :
    (onQueueMessage { initState with audio_queue := List.replicate 60 [] }
        [some 1]).audio_queue = List.replicate 60 [] ∧
    (onQueueMessage initState [some 1]).audio_queue = [[some 1]] :=
  ⟨(overflow_drop _ [some 1]).1 (by simp),
   (overflow_drop initState [some 1]).2 (by simp [initState])⟩

/-- Claim C7 (channel-length fault and continue signal): `process` throws
exactly when the two output channel lengths differ, and it does so with the
state completely unchanged; when the lengths match it returns `true`. -/
theorem channel_mismatch_fault (s : AQState) (len0 len1 : Nat) :
    (len0 ≠ len1 →
       process s len0 len1 = (s, .error "Channel lengths do not match")) ∧
    (len0 = len1 →
       ∃ r : ProcResult, (process s len0 len1).2 = .ok r ∧ r.ret = true) := by
  constructor
  · intro h
    simp [process, h]
  · intro h
    subst h
    rw [process_eq]
    dsimp only
    split
    · exact ⟨_, rfl, rfl⟩
    · exact ⟨_, rfl, rfl⟩

/-- Witness for C7: lengths 1 ≠ 2 throw with the state unchanged, and
lengths 128 = 128 return `true`. -/
theorem channel_mismatch_fault_witness :
    process initState 1 2 = (initState, .error "Channel lengths do not match") ∧
    ∃ r : ProcResult, (process initState 128 128).2 = .ok r ∧ r.ret = true :=
  ⟨(channel_mismatch_fault initState 1 2).1 (by decide),
   (channel_mismatch_fault initState 128 128).2 rfl⟩

/-- Claim C3 counterexample: a zero-length invocation on the constructor
state (empty queue, no active chunk) overwrites the Last-Sample State with
the undefined value instead of leaving it unchanged, so the claim fails for
zero-length output blocks. -/
theorem underrun_sustain_counterexample :
    initState.audio_queue = [] ∧ initState.current_buffer = none ∧
    (process initState 0 0).1.last_samples ≠ initState.last_samples := by
  decide

/-- Claim C3 (amended to positive block lengths): with the queue empty and
no active chunk, an invocation with a positive block length emits the
Last-Sample State on every slot of each channel and leaves the Last-Sample
State unchanged; if moreover no chunk has ever arrived since construction
(through positive-length invocations), the emitted value is zero on both
channels. -/
theorem underrun_sustain (s : AQState) (len : Nat) (hq : s.audio_queue = [])
    (hb : s.current_buffer = none) (hlen : 1 ≤ len) :
    (∃ r : ProcResult, (process s len len).2 = Except.ok r ∧
       r.pairs = List.replicate len s.last_samples) ∧
    (process s len len).1.last_samples = s.last_samples ∧
    (ReachableNoChunk s →
       ∃ r : ProcResult, (process s len len).2 = Except.ok r ∧
         r.pairs = List.replicate len ((some 0 : Val), (some 0 : Val))) := by
  obtain ⟨hpairs, hlast, _, _⟩ := process_underrun s len hq hb hlen
  refine ⟨hpairs, hlast, fun hreach => ?_⟩
  obtain ⟨r, hr, hrp⟩ := hpairs
  exact ⟨r, hr, by rw [hrp, (reachableNoChunk_spec s hreach).2.2]⟩

/-- Witness for C3 (amended) at the constructor state with block length 2. -/
theorem underrun_sustain_witness :
    (∃ r : ProcResult, (process initState 2 2).2 = Except.ok r ∧
       r.pairs = List.replicate 2 initState.last_samples) ∧
    (process initState 2 2).1.last_samples = initState.last_samples ∧
    (ReachableNoChunk initState →
       ∃ r : ProcResult, (process initState 2 2).2 = Except.ok r ∧
         r.pairs = List.replicate 2 ((some 0 : Val), (some 0 : Val))) :=
  underrun_sustain initState 2 rfl rfl (by decide)

/-- Claim C9 (even-length chunk read safety): under the invariant that
every chunk in play has even positive length (with the cursor even and
strictly inside the active chunk), every chunk read performed by the
rendering loop is in bounds and the invariant is preserved by slots, whole
invocations and the arrival of even positive chunks; the constructor state
satisfies the invariant; and for an active chunk of odd length the loop
performs a read at index equal to the chunk length, i.e. out of bounds: the
safety precondition is evenness. -/
theorem even_read_safety :
    (∀ (s : AQState) (n : Nat), GoodState s →
       ∀ p ∈ loopReads n s, p.2 < p.1) ∧
    (∀ (s : AQState) (n : Nat), GoodState s →
       GoodState (processLoop n s).1) ∧
    (∀ (s : AQState) (l0 l1 : Nat), GoodState s →
       GoodState (process s l0 l1).1) ∧
    (∀ (s : AQState) (payload : List Val), GoodState s →
       payload.length % 2 = 0 → 0 < payload.length →
       GoodState (onQueueMessage s payload)) ∧
    GoodState initState ∧
    (∀ (s : AQState) (b : List Val) (n : Nat),
       s.current_buffer = some b → s.current_buffer_idx = 0 →
       b.length % 2 = 1 → b.length + 1 ≤ 2 * n →
       (b.length, b.length) ∈ loopReads n s) := by
  refine ⟨fun s n h => loopReads_inBounds n s h,
    fun s n h => goodState_processLoop n s h,
    fun s l0 l1 h => goodState_process s l0 l1 h,
    fun s payload h hp2 hp => goodState_onQueueMessage s payload h hp2 hp,
    ⟨fun _ => rfl, fun b hb => by simp [initState] at hb,
      fun c hc => by simp [initState] at hc⟩,
    fun s b n hb hidx hodd hfuel =>
      odd_chunk_read_oob n s b hb (by omega) (by omega) hodd (by omega)⟩

/-- Witness for C9: the reads over two slots after an even chunk of length
2 arrives are in bounds, and with an active odd chunk of length 1 the first
slot reads index 1, the chunk length. -/
theorem even_read_safety_witness :
    (∀ p ∈ loopReads 2 (onQueueMessage initState [some 1, some 2]),
       p.2 < p.1) ∧
    ((1 : Nat), (1 : Nat)) ∈ loopReads 1
      { initState with current_buffer := some [some 5] } :=
  ⟨even_read_safety.1 _ 2
     (even_read_safety.2.2.2.1 initState [some 1, some 2]
       even_read_safety.2.2.2.2.1 (by decide) (by decide)),
   even_read_safety.2.2.2.2.2 _ [some 5] 1 rfl rfl (by decide) (by decide)⟩

/-- Claim C10: the end-of-block Last-Sample read at index `length - 1` of
each output channel is in bounds iff the block length is at least 1, and a
zero-length block overwrites the Last-Sample State with the undefined value
(`none`). -/
theorem zero_length_last_sample (s : AQState) (len : Nat) :
    ((((processLoop len s).2.map Prod.fst).get? (len - 1)).isSome = true ↔
       1 ≤ len) ∧
    ((((processLoop len s).2.map Prod.snd).get? (len - 1)).isSome = true ↔
       1 ≤ len) ∧
    (process s 0 0).1.last_samples = (none, none) := by
  have hlen1 : ((processLoop len s).2.map Prod.fst).length = len := by
    simp [processLoop_length]
  have hlen2 : ((processLoop len s).2.map Prod.snd).length = len := by
    simp [processLoop_length]
  refine ⟨?_, ?_, ?_⟩
  · rw [get?_isSome_iff, hlen1]
    omega
  · rw [get?_isSome_iff, hlen2]
    omega
  · rw [process_eq]
    dsimp only
    split
    · rfl
    · rfl

/-- Witness for C10 at the constructor state: the zero-length invocation
stores the undefined pair. -/
theorem zero_length_last_sample_witness :
    (process initState 0 0).1.last_samples = (none, none) :=
  (zero_length_last_sample initState 0).2.2

/-- The state of claim C2's scenario: from the constructor state, one chunk
of 10 zeros then one chunk of 10 ones arrive over the port. -/
def scenarioState : AQState :=
  onQueueMessage (onQueueMessage initState (List.replicate 10 (some 0)))
    (List.replicate 10 (some 1))

/-- Claim C2 counterexample: rendering 25 one-slot blocks from the scenario
state does not emit 10 zero samples then 15 one samples on channel 0 (the
code consumes two interleaved samples per slot, so each 10-sample chunk
lasts only 5 slots), and no refill request is posted at slot 21 (the only
request is posted at the first slot, where the depth is already below the
low-water mark 3). -/
theorem concrete_scenario_counterexample :
    ¬ (((runProcTrace scenarioState (List.replicate 25 (1, 1))).2.1.map
          Prod.fst =
            List.replicate 10 ((some 0 : Val)) ++
            List.replicate 15 ((some 1 : Val))) ∧
       (runProcTrace scenarioState (List.replicate 25 (1, 1))).2.2.get? 20 =
         some true) := by
  decide

/-- Claim C2 (amended to the stereo code): rendering 25 one-slot blocks
from the scenario state emits 5 stereo pairs of 0.0, then 5 pairs of 1.0,
then 15 sustained pairs of 1.0, and exactly one refill request is posted,
at the first slot. -/
theorem concrete_scenario_amended :
    (runProcTrace scenarioState (List.replicate 25 (1, 1))).2.1 =
      List.replicate 5 ((some 0 : Val), (some 0 : Val)) ++
      List.replicate 20 ((some 1 : Val), (some 1 : Val)) ∧
    (runProcTrace scenarioState (List.replicate 25 (1, 1))).2.2 =
      true :: List.replicate 24 false := by
  decide

/-- Claim C5 (backpressure request condition): at the end of a `process`
invocation a refill request is sent iff the queue depth is below 3 and the
counter is 0, sending sets the counter to 1, and from an empty queue with
counter 0 two consecutive invocations emit exactly one request. -/
theorem backpressure_request :
    (∀ (s : AQState) (len : Nat),
       sentFlag (process s len len).2 = true ↔
         ((processLoop len s).1.audio_queue.length < 3 ∧
          s.requested_frames = 0)) ∧
    (∀ (s : AQState) (l0 l1 : Nat),
       sentFlag (process s l0 l1).2 = true →
         (process s l0 l1).1.requested_frames = 1) ∧
    (∀ (s : AQState) (len1 len2 : Nat),
       s.audio_queue = [] → s.requested_frames = 0 →
         sentFlag (process s len1 len1).2 = true ∧
         sentFlag (process (process s len1 len1).1 len2 len2).2 = false) := by
  refine ⟨process_sent_iff, ?_, ?_⟩
  · intro s l0 l1 h
    rw [process_requested_eq, if_pos h, process_sent_requested_zero s l0 l1 h]
  · intro s len1 len2 hq hr
    have hsent : sentFlag (process s len1 len1).2 = true := by
      rw [process_sent_iff]
      exact ⟨by rw [processLoop_queue_nil len1 s hq]; decide, hr⟩
    refine ⟨hsent, ?_⟩
    have hrf1 : (process s len1 len1).1.requested_frames = 1 := by
      rw [process_requested_eq, if_pos hsent, hr]
    exact (process_requested_ne _ len2 len2 (by rw [hrf1]; decide)).2

/-- Witness for C5: from the constructor state (empty queue, counter 0),
the first 128-frame invocation posts a request and the second does not. -/
theorem backpressure_request_witness :
    sentFlag (process initState 128 128).2 = true ∧
    sentFlag (process (process initState 128 128).1 128 128).2 = false :=
  backpressure_request.2.2 initState 128 128 rfl rfl

/-- Claim C6 (outstanding-request counter invariant): on every reachable
state the counter is 0 or 1; the arrival of any chunk message resets it
to 0 whether or not the chunk is enqueued; and `process` changes it only by
the increment performed when a refill request is sent. -/
theorem counter_invariant :
    (∀ s : AQState, Reachable s → s.requested_frames ≤ 1) ∧
    (∀ (s : AQState) (payload : List Val), Reachable s →
       (onQueueMessage s payload).requested_frames = 0) ∧
    (∀ (s : AQState) (l0 l1 : Nat),
       sentFlag (process s l0 l1).2 = false →
         (process s l0 l1).1.requested_frames = s.requested_frames) ∧
    (∀ (s : AQState) (l0 l1 : Nat),
       sentFlag (process s l0 l1).2 = true →
         (process s l0 l1).1.requested_frames = s.requested_frames + 1) := by
  have hinv : ∀ s : AQState, Reachable s → s.requested_frames ≤ 1 := by
    intro s hs
    induction hs with
    | init => decide
    | msg payload _ ih =>
        unfold onQueueMessage
        dsimp only
        split <;> omega
    | proc l0 l1 hr ih =>
        rename_i t
        rw [process_requested_eq]
        by_cases hsent : sentFlag (process t l0 l1).2 = true
        · rw [if_pos hsent, process_sent_requested_zero t l0 l1 hsent]
        · rw [if_neg hsent]
          exact ih
  refine ⟨hinv, ?_, ?_, ?_⟩
  · intro s payload hs
    have := hinv s hs
    unfold onQueueMessage
    dsimp only
    split <;> omega
  · intro s l0 l1 h
    rw [process_requested_eq, h]
    simp
  · intro s l0 l1 h
    rw [process_requested_eq, if_pos h]

/-- Witness for C6: the constructor state is reachable, its counter is at
most 1, and a chunk message arriving there leaves the counter at 0. -/
theorem counter_invariant_witness :
    initState.requested_frames ≤ 1 ∧
    (onQueueMessage initState [some 2]).requested_frames = 0 :=
  ⟨counter_invariant.1 initState Reachable.init,
   counter_invariant.2.1 initState [some 2] Reachable.init⟩

/-- Claim C8 (permanent latch): once the counter is 1 and no chunk message
ever arrives, no later `process` invocation posts a refill request, and the
counter stays at 1. -/
theorem latch_permanent (s : AQState) (lens : List (Nat × Nat))
    (h : s.requested_frames = 1) :
    (∀ b ∈ (runProc s lens).2, b = false) ∧
    (runProc s lens).1.requested_frames = 1 := by
  induction lens generalizing s with
  | nil => exact ⟨by simp [runProc], h⟩
  | cons p rest ih =>
      obtain ⟨l0, l1⟩ := p
      have h1 := process_requested_ne s l0 l1 (by omega)
      have ih2 := ih (process s l0 l1).1 (by rw [h1.1, h])
      refine ⟨?_, ?_⟩
      · intro b hb
        simp only [runProc] at hb
        rcases List.mem_cons.mp hb with hb | hb
        · rw [hb, h1.2]
        · exact ih2.1 b hb
      · simpa only [runProc] using ih2.2

/-- Witness for C8: after the request posted by a first invocation from the
constructor state, three further 128-frame invocations post nothing. -/
theorem latch_permanent_witness :
    (∀ b ∈ (runProc (process initState 128 128).1
        [(128, 128), (128, 128), (128, 128)]).2, b = false) ∧
    (runProc (process initState 128 128).1
        [(128, 128), (128, 128), (128, 128)]).1.requested_frames = 1 :=
  latch_permanent (process initState 128 128).1
    [(128, 128), (128, 128), (128, 128)] (by decide)
